import Mathlib

/-!
# Verification of the `imagetor` image-processing core

Shallow embedding of the Go package `imagetor` (image/tensor conversion,
bilinear resize, overlay compositing, grayscale, rotation) together with
theorems checking the package's specification against the code.

Modelling conventions:
* a Go `[][][]float64` tensor is `List (List (List ℚ))`;
* `float64` arithmetic is idealized as exact rational arithmetic;
* Go's `int(f)` float-to-int conversion (truncation toward zero) and Go's
  truncated integer division are made explicit (`goInt`, `Int.tdiv`);
* each parallel operation splits one axis over `numWorkers = 4` goroutines
  with ranges `[i*tile, (i+1)*tile)`; since the workers write disjoint
  cells, the operation is modelled as a pure function whose cell value
  depends on whether any worker range covers the cell (`workerSpan`);
  cells no worker covers keep their `make`-allocated zero value;
* `math.Cos`/`math.Sin` of the rotation angle are abstracted as two
  rational parameters `cosv`, `sinv` of `rotate`.
-/

namespace Imagetor

/-- A tensor `[row][col][channel]`, mirroring Go `[][][]float64`. -/
abbrev Tensor := List (List (List ℚ))

/-- Number of color channels, from `const channels int = 4`. -/
def channels : Nat := 4

/-- Fixed worker-pool size, from `const numWorkers int = 4`. -/
def numWorkers : Nat := 4

/-- Go `len(*tensor)`: the height (row count). -/
def tHeight (t : Tensor) : Nat := t.length

/-- Go `len((*tensor)[0])`: the width taken from row 0 (Go panics on an
empty tensor; the embedding reads width 0 instead). -/
def tWidth (t : Tensor) : Nat := (t.getD 0 []).length

/-- Go `tensor[y][x]` (out-of-range reads default to `[]`; Go would panic). -/
def pix (t : Tensor) (y x : Nat) : List ℚ := (t.getD y []).getD x []

/-- Go `tensor[y][x][c]` (out-of-range reads default to 0; Go would panic). -/
def chan (t : Tensor) (y x c : Nat) : ℚ := (pix t y x).getD c 0

/-- A freshly allocated pixel, Go `make([]float64, channels)`. -/
def zeroPixel : List ℚ := List.replicate channels 0

/-- Go `int(f)` conversion of a float64: truncation toward zero. -/
def goInt (q : ℚ) : Int := if 0 ≤ q then Rat.floor q else -(Rat.floor (-q))

/-- Go `uint16(f)`: truncation toward zero reduced mod 2^16.  The Go spec
leaves out-of-range conversions implementation-defined; all uses in this
development are in range `[0, 65536)`. -/
def goUint16 (q : ℚ) : Nat := (goInt q).toNat % 65536

/-- Whether index `v` of an axis is covered by one of the `numWorkers`
goroutines when the axis is split as `[i*tile, (i+1)*tile)` for
`i = 0 .. numWorkers-1` (the spawn pattern `go func(i*tile, (i+1)*tile)`).
Indices `v ≥ numWorkers*tile` are covered by no worker and keep their
zero-initialized value. -/
def workerSpan (tile v : Nat) : Bool :=
  (List.range numWorkers).any fun i => decide (i * tile ≤ v) && decide (v < (i + 1) * tile)

/-- `workerSpan` over `Int`, for `AddOverlay`'s offset-based row ranges. -/
def workerSpanI (tile v : Int) : Bool :=
  (List.range numWorkers).any fun i =>
    decide ((i : Int) * tile ≤ v) && decide (v < ((i : Int) + 1) * tile)

/-- Allocation plus disjoint worker writes: the `h × w` tensor whose cell
`(y, x)` holds `f y x`.  All tensor-producing functions of the package
allocate with nested `make` loops and then fill cells this way. -/
def mkTensor (h w : Nat) (f : Nat → Nat → List ℚ) : Tensor :=
  (List.range h).map fun y => (List.range w).map fun x => f y x

/-- A decoded raster image: `At x y c` is channel `c` (0 = R, 1 = G, 2 = B,
3 = A) of `img.At(x, y).RGBA()`, a 16-bit sample in `[0, 65535]`.
`Bounds().Min` is taken to be the origin, as for stdlib-decoded images. -/
structure Image where
  width : Nat
  height : Nat
  At : Nat → Nat → Nat → Nat

/-- `ImageToTensor`: column-partitioned conversion.  Each worker `i` fills
columns `[i*tileWidth, (i+1)*tileWidth)` for every row with the four
channel samples divided by 65535.0; columns no worker covers stay at the
`make`-allocated zero pixel. -/
def imageToTensor (img : Image) : Tensor :=
  mkTensor img.height img.width fun y x =>
    if workerSpan (img.width / numWorkers) x then
      (List.range channels).map fun c => (img.At x y c : ℚ) / 65535
    else zeroPixel

/-- `TensorToImage`: writes `color.RGBA64{uint16(v*65535), ...}` via
`img.Set` into an `image.NewRGBA` buffer, which stores 8 bits per channel:
`Set` keeps `uint8(v16 >> 8)` and `At(...).RGBA()` returns the stored byte
times `0x101`.  Columns not covered by a worker, and out-of-bounds reads,
yield the buffer's zero (transparent black). -/
def tensorToImage (t : Tensor) : Image :=
  { width := tWidth t
    height := tHeight t
    At := fun x y c =>
      if x < tWidth t ∧ y < tHeight t ∧ workerSpan (tWidth t / numWorkers) x = true
          ∧ c < channels then
        goUint16 (chan t y x c * 65535) / 256 * 257
      else 0 }

/-- The per-destination-pixel computation of `Resize`, as in the source:
map `(x, y)` to `oldX = x*oldWidth/width`, `oldY = y*oldHeight/height`,
truncate to `x0, y0`, skip (leaving the zero pixel) when the surrounding
pixels are out of bounds, otherwise blend the four neighbours. -/
def resizePixel (t : Tensor) (width height y x : Nat) : List ℚ :=
  let oldX : ℚ := (x : ℚ) * (tWidth t : ℚ) / (width : ℚ)
  let oldY : ℚ := (y : ℚ) * (tHeight t : ℚ) / (height : ℚ)
  let x0 : Int := goInt oldX
  let y0 : Int := goInt oldY
  let dx : ℚ := oldX - (x0 : ℚ)
  let dy : ℚ := oldY - (y0 : ℚ)
  if x0 < 0 ∨ x0 ≥ (tWidth t : Int) - 1 ∨ y0 < 0 ∨ y0 ≥ (tHeight t : Int) - 1 then
    zeroPixel
  else
    (List.range channels).map fun c =>
      (1 - dx) * (1 - dy) * chan t y0.toNat x0.toNat c
        + dx * (1 - dy) * chan t y0.toNat (x0.toNat + 1) c
        + (1 - dx) * dy * chan t (y0.toNat + 1) x0.toNat c
        + dx * dy * chan t (y0.toNat + 1) (x0.toNat + 1) c

/-- `Resize`: row-partitioned bilinear resize.  The in-place Go version
(`*tensor = newTensor`) is modelled by returning the new tensor.  Rows not
covered by a worker (`y ≥ numWorkers*(height/numWorkers)`) keep the
`make`-allocated zero pixels. -/
def resize (t : Tensor) (width height : Nat) : Tensor :=
  mkTensor height width fun y x =>
    if workerSpan (height / numWorkers) y then resizePixel t width height y x
    else zeroPixel

/-- `scaleFactor`: 1.0 unless the overlay exceeds the target in a
dimension, in which case the smaller of the two shrink ratios. -/
def scaleFactor (target overlay : Tensor) : ℚ :=
  if tWidth overlay > tWidth target ∨ tHeight overlay > tHeight target then
    min ((tWidth target : ℚ) / (tWidth overlay : ℚ))
        ((tHeight target : ℚ) / (tHeight overlay : ℚ))
  else 1

/-- `AddOverlay(target, overlay *Tensor)`: returns `(nil, error)` when a
tensor has zero rows (modelled `(none, overlay)` — the overlay is not yet
mutated); otherwise resizes `*overlay` in place to the scaled dimensions,
copies the target into a fresh output, and alpha-blends the resized
overlay over the centered rectangle, row-partitioned with
`tileHeight = newOverlayHeight / numWorkers` starting at `offsetY`.
The returned pair is (result-or-error, final state of `*overlay`). -/
def addOverlay (target overlay : Tensor) : Option Tensor × Tensor :=
  if target.length = 0 ∨ overlay.length = 0 then
    (none, overlay)
  else
    let factor := scaleFactor target overlay
    let newOverlayWidth : Int := goInt ((tWidth overlay : ℚ) * factor)
    let newOverlayHeight : Int := goInt ((tHeight overlay : ℚ) * factor)
    let overlay2 := resize overlay newOverlayWidth.toNat newOverlayHeight.toNat
    let offsetX : Int := Int.tdiv ((tWidth target : Int) - newOverlayWidth) 2
    let offsetY : Int := Int.tdiv ((tHeight target : Int) - newOverlayHeight) 2
    let tileHeight : Int := Int.tdiv newOverlayHeight (numWorkers : Int)
    (some (mkTensor (tHeight target) (tWidth target) fun y x =>
      if workerSpanI tileHeight ((y : Int) - offsetY)
          && decide (offsetX ≤ (x : Int))
          && decide ((x : Int) < offsetX + newOverlayWidth) then
        let oy := ((y : Int) - offsetY).toNat
        let ox := ((x : Int) - offsetX).toNat
        let alpha := chan overlay2 oy ox 3
        ((List.range 3).map fun i =>
          chan overlay2 oy ox i + (1 - alpha) * chan target y x i) ++ [1]
      else
        (List.range channels).map fun c => chan target y x c),
     overlay2)

/-- The per-pixel body of `GrayScale`: `gray = 0.2126*r + 0.7152*g +
0.0722*b` written into channels 0, 1, 2 of the pixel. -/
def grayPix (p : List ℚ) : List ℚ :=
  let gray := (0.2126 : ℚ) * p.getD 0 0 + (0.7152 : ℚ) * p.getD 1 0
    + (0.0722 : ℚ) * p.getD 2 0
  ((p.set 0 gray).set 1 gray).set 2 gray

/-- `GrayScale` (in place, modelled as returning the mutated tensor):
every pixel `(y, x)` with `y < height`, `x < width` is grayed. -/
def grayScale (t : Tensor) : Tensor :=
  t.map fun row => row.mapIdx fun x p => if x < tWidth t then grayPix p else p

/-- The source x-coordinate `originalX` computed by `Rotate` for
destination pixel `(x, y)`, with `cosv`, `sinv` standing for
`math.Cos(radians)`, `math.Sin(radians)`. -/
def rotSrcX (t : Tensor) (cosv sinv : ℚ) (y x : Nat) : ℚ :=
  ((x : ℚ) - (tWidth t : ℚ) / 2) * cosv + ((y : ℚ) - (tHeight t : ℚ) / 2) * sinv
    + (tWidth t : ℚ) / 2

/-- The source y-coordinate `originalY` computed by `Rotate`. -/
def rotSrcY (t : Tensor) (cosv sinv : ℚ) (y x : Nat) : ℚ :=
  -((x : ℚ) - (tWidth t : ℚ) / 2) * sinv + ((y : ℚ) - (tHeight t : ℚ) / 2) * cosv
    + (tHeight t : ℚ) / 2

/-- `Rotate` (in place): a zero-initialized `tempTensor` receives, for each
destination pixel whose inverse-mapped source coordinate is in bounds, the
degenerate interpolation of the source (the source sets `x2, y2 := x1, y1`);
out-of-bounds destinations keep the temp buffer's zero pixel.  The final
loops copy `tempTensor[y][x]` over the original for `y < height`,
`x < width`. -/
def rotate (t : Tensor) (cosv sinv : ℚ) : Tensor :=
  t.mapIdx fun y row => row.mapIdx fun x p =>
    if x < tWidth t then
      let ox := rotSrcX t cosv sinv y x
      let oy := rotSrcY t cosv sinv y x
      if 0 ≤ ox ∧ ox < (tWidth t : ℚ) ∧ 0 ≤ oy ∧ oy < (tHeight t : ℚ) then
        let x1 := (Rat.floor ox).toNat
        let y1 := (Rat.floor oy).toNat
        let x2 := x1
        let y2 := y1
        let dx := ox - (Rat.floor ox : ℚ)
        let dy := oy - (Rat.floor oy : ℚ)
        (List.range channels).map fun c =>
          (1 - dx) * (1 - dy) * chan t y1 x1 c + dx * (1 - dy) * chan t y1 x2 c
            + (1 - dx) * dy * chan t y2 x1 c + dx * dy * chan t y2 x2 c
      else zeroPixel
    else p

/-- A uniform-color tensor: `h` rows of `w` copies of the pixel `p`. -/
def uniform (h w : Nat) (p : List ℚ) : Tensor :=
  List.replicate h (List.replicate w p)

/-- Modelled from the spec: the value the specification's §4.2 promises for
destination pixel `(x, y)` of `Resize` — `srcX = x*oldWidth/width`,
`srcY = y*oldHeight/height`, `x0 = ⌊srcX⌋`, `y0 = ⌊srcY⌋`, the zero pixel
under the documented boundary policy, otherwise the bilinear blend of the
four surrounding source pixels. -/
def resizeSpecPixel (t : Tensor) (width height y x : Nat) : List ℚ :=
  let srcX : ℚ := (x : ℚ) * (tWidth t : ℚ) / (width : ℚ)
  let srcY : ℚ := (y : ℚ) * (tHeight t : ℚ) / (height : ℚ)
  let x0 : Int := Rat.floor srcX
  let y0 : Int := Rat.floor srcY
  let dx : ℚ := srcX - (x0 : ℚ)
  let dy : ℚ := srcY - (y0 : ℚ)
  if x0 < 0 ∨ x0 ≥ (tWidth t : Int) - 1 ∨ y0 < 0 ∨ y0 ≥ (tHeight t : Int) - 1 then
    List.replicate 4 0
  else
    (List.range 4).map fun c =>
      (1 - dx) * (1 - dy) * chan t y0.toNat x0.toNat c
        + dx * (1 - dy) * chan t y0.toNat (x0.toNat + 1) c
        + (1 - dx) * dy * chan t (y0.toNat + 1) x0.toNat c
        + dx * dy * chan t (y0.toNat + 1) (x0.toNat + 1) c

/-! ## Basic lemmas about the embedding -/

theorem ratFloor_eq_floor (q : ℚ) : Rat.floor q = ⌊q⌋ :=
  (Rat.floor_def' q).trans Rat.floor_def.symm

theorem goInt_of_nonneg {q : ℚ} (h : 0 ≤ q) : goInt q = ⌊q⌋ := by
  simp [goInt, h, ratFloor_eq_floor]

theorem goInt_eq_ratFloor_of_nonneg {q : ℚ} (h : 0 ≤ q) : goInt q = Rat.floor q := by
  simp [goInt, h]

theorem goInt_natCast (n : ℕ) : goInt (n : ℚ) = (n : Int) := by
  rw [goInt_of_nonneg (by positivity)]
  exact Int.floor_natCast n

theorem goInt_nat_mul_div (a b c : ℕ) :
    goInt ((a : ℚ) * (b : ℚ) / (c : ℚ)) = Rat.floor ((a : ℚ) * (b : ℚ) / (c : ℚ)) :=
  goInt_eq_ratFloor_of_nonneg (by positivity)

theorem ratFloor_nat_mul_div (a b c : ℕ) :
    Rat.floor ((a : ℚ) * (b : ℚ) / (c : ℚ)) = ((a * b / c : ℕ) : Int) := by
  rw [ratFloor_eq_floor]
  have h1 : ((a : ℚ) * (b : ℚ)) = ((a * b : ℕ) : ℚ) := by push_cast; ring
  rw [h1, Rat.floor_natCast_div_natCast]
  exact (Int.natCast_div (a * b) c).symm

theorem workerSpan_iff {tile v : Nat} : workerSpan tile v = true ↔ v < numWorkers * tile := by
  simp only [workerSpan, List.any_eq_true, List.mem_range, Bool.and_eq_true,
    decide_eq_true_eq]
  constructor
  · rintro ⟨i, hi, -, h2⟩
    calc v < (i + 1) * tile := h2
      _ ≤ numWorkers * tile := Nat.mul_le_mul_right _ hi
  · intro h
    have ht : 0 < tile := by
      rcases Nat.eq_zero_or_pos tile with h0 | h0
      · subst h0
        rw [Nat.mul_zero] at h
        exact absurd h (Nat.not_lt_zero v)
      · exact h0
    refine ⟨v / tile, ?_, Nat.div_mul_le_self v tile, ?_⟩
    · exact (Nat.div_lt_iff_lt_mul ht).mpr h
    · calc v = tile * (v / tile) + v % tile := (Nat.div_add_mod v tile).symm
        _ < tile * (v / tile) + tile := Nat.add_lt_add_left (Nat.mod_lt v ht) _
        _ = (v / tile + 1) * tile := by ring

theorem length_mkTensor (h w : Nat) (f : Nat → Nat → List ℚ) :
    (mkTensor h w f).length = h := by
  simp [mkTensor]

theorem getD_map_range {α : Type} (g : Nat → α) {n i : Nat} (h : i < n) (d : α) :
    ((List.range n).map g).getD i d = g i := by
  rw [List.getD_eq_getElem?_getD, List.getElem?_map, List.getElem?_range h]
  rfl

theorem getD_replicate {α : Type} (a : α) {n i : Nat} (h : i < n) (d : α) :
    (List.replicate n a).getD i d = a := by
  rw [List.getD_eq_getElem?_getD, List.getElem?_replicate, if_pos h]
  rfl

theorem pix_mkTensor {h w : Nat} (f : Nat → Nat → List ℚ) {y x : Nat}
    (hy : y < h) (hx : x < w) : pix (mkTensor h w f) y x = f y x := by
  unfold pix mkTensor
  rw [getD_map_range _ hy, getD_map_range _ hx]

theorem mem_mkTensor_length {h w : Nat} {f : Nat → Nat → List ℚ} {row : List (List ℚ)}
    (hr : row ∈ mkTensor h w f) : row.length = w := by
  simp only [mkTensor, List.mem_map, List.mem_range] at hr
  obtain ⟨y, -, rfl⟩ := hr
  simp

theorem resize_length (t : Tensor) (width height : Nat) :
    (resize t width height).length = height :=
  length_mkTensor _ _ _

theorem resize_row_length {t : Tensor} {width height : Nat} {row : List (List ℚ)}
    (hr : row ∈ resize t width height) : row.length = width :=
  mem_mkTensor_length hr

theorem chan_uniform {h w : Nat} {p : List ℚ} {y x : Nat}
    (hy : y < h) (hx : x < w) (c : Nat) :
    chan (uniform h w p) y x c = p.getD c 0 := by
  unfold chan pix uniform
  rw [getD_replicate _ hy, getD_replicate _ hx]

theorem resizePixel_eq_spec (t : Tensor) (W H y x : Nat) :
    resizePixel t W H y x = resizeSpecPixel t W H y x := by
  simp only [resizePixel, resizeSpecPixel, goInt_nat_mul_div, zeroPixel, channels]

theorem resizeSpecPixel_uniform {h w : Nat} (p : List ℚ) (hp : p.length = 4)
    (W H y x : Nat) (hxint : x * w / W + 1 < w) (hyint : y * h / H + 1 < h) :
    resizeSpecPixel (uniform h w p) W H y x = p := by
  have hh : 0 < h := by
    rcases Nat.eq_zero_or_pos h with h0 | h0
    · subst h0
      rw [Nat.mul_zero, Nat.zero_div] at hyint
      omega
    · exact h0
  have htW : tWidth (uniform h w p) = w := by
    unfold tWidth uniform
    rw [getD_replicate _ hh]
    exact List.length_replicate w p
  have htH : tHeight (uniform h w p) = h := by
    simp [tHeight, uniform]
  simp only [resizeSpecPixel, htW, htH, ratFloor_nat_mul_div, Int.toNat_natCast]
  rw [if_neg ?hcond]
  case hcond =>
    push_neg
    have h2 : ((x * w / W : ℕ) : ℤ) + 1 < (w : ℤ) := by exact_mod_cast hxint
    have h3 : ((y * h / H : ℕ) : ℤ) + 1 < (h : ℤ) := by exact_mod_cast hyint
    refine ⟨Int.natCast_nonneg _, by omega, Int.natCast_nonneg _, by omega⟩
  have step : List.map (fun c => p.getD c 0) (List.range 4) = p := by
    match p, hp with
    | [a0, a1, a2, a3], _ => rfl
  refine Eq.trans (List.map_congr_left fun c _ => ?_) step
  rw [chan_uniform (Nat.lt_of_succ_lt hyint) (Nat.lt_of_succ_lt hxint),
    chan_uniform (Nat.lt_of_succ_lt hyint) hxint,
    chan_uniform hyint (Nat.lt_of_succ_lt hxint),
    chan_uniform hyint hxint]
  ring

/-! ## Claim C2 -/

/-- C2 (amended): for every source tensor, target dimensions and
destination pixel `(x, y)` lying on a worker-covered row
(`y < numWorkers * (height / numWorkers)`), the pixel produced by `Resize`
is exactly the one promised by the specification: the zero pixel under the
boundary policy on `x0 = ⌊srcX⌋`, `y0 = ⌊srcY⌋`, and otherwise the
bilinear blend of the four surrounding source pixels.  (The claim's
unrestricted form is refuted by `resize_spec_fails_on_uncovered_row`:
rows `y ≥ numWorkers * (height / numWorkers)` are covered by no worker
and stay zero even when the blend is defined.) -/
theorem resize_covered_pixel_matches_spec (t : Tensor) (W H y x : Nat)
    (hy : y < H) (hx : x < W) (hcov : y < numWorkers * (H / numWorkers)) :
    pix (resize t W H) y x = resizeSpecPixel t W H y x := by
  unfold resize
  rw [pix_mkTensor _ hy hx, if_pos (workerSpan_iff.mpr hcov), resizePixel_eq_spec]

/-- C2 counterexample: resizing a uniform all-ones 6×2 tensor to 2×5, the
destination pixel `(x, y) = (0, 4)` maps to interior source coordinates
(`x0 = 0 < 1`, `y0 = 4 < 5`), so the claim demands the bilinear blend
`[1, 1, 1, 1]` — but row 4 lies beyond the four workers' ranges
(`tileHeight = 5/4 = 1` covers only rows 0–3) and is left at zero. -/
theorem resize_spec_fails_on_uncovered_row :
    resizeSpecPixel (uniform 6 2 [1, 1, 1, 1]) 2 5 4 0 = [1, 1, 1, 1] ∧
    pix (resize (uniform 6 2 [1, 1, 1, 1]) 2 5) 4 0 = List.replicate 4 0 := by
  constructor
  · exact resizeSpecPixel_uniform [1, 1, 1, 1] rfl 2 5 4 0 (by decide) (by decide)
  · unfold resize
    rw [pix_mkTensor _ (by norm_num) (by norm_num), if_neg (by decide)]
    rfl

/-- C2 witness: the amended theorem applied at the covered destination
pixel `(0, 2)` of the same resize. -/
theorem resize_covered_pixel_matches_spec_witness :
    2 < 5 ∧ 0 < 2 ∧ 2 < numWorkers * (5 / numWorkers) ∧
    pix (resize (uniform 6 2 [1, 1, 1, 1]) 2 5) 2 0
      = resizeSpecPixel (uniform 6 2 [1, 1, 1, 1]) 2 5 2 0 :=
  ⟨by norm_num, by norm_num, by decide,
    resize_covered_pixel_matches_spec _ 2 5 2 0 (by norm_num) (by norm_num) (by decide)⟩

theorem tWidth_mkTensor {h w : Nat} (f : Nat → Nat → List ℚ) (hh : 0 < h) :
    tWidth (mkTensor h w f) = w := by
  unfold tWidth mkTensor
  rw [getD_map_range _ hh]
  simp

theorem tHeight_mkTensor {h w : Nat} (f : Nat → Nat → List ℚ) :
    tHeight (mkTensor h w f) = h :=
  length_mkTensor h w f

/-! ## Claim C6 -/

/-- C6 (amended): resizing a uniform-color tensor yields the exact uniform
color at every destination pixel that lies on a worker-covered row
(`y < numWorkers * (height / numWorkers)`) and whose mapped source base
coordinates are interior (`x0 + 1 < oldWidth`, `y0 + 1 < oldHeight`).
(The claim's unrestricted form fails: boundary-mapped pixels and rows no
worker covers are left at transparent black, see
`resize_uniform_not_uniform`.) -/
theorem resize_uniform_covered_interior {h w : Nat} (p : List ℚ) (hp : p.length = 4)
    (W H y x : Nat) (hy : y < H) (hx : x < W) (hcov : y < numWorkers * (H / numWorkers))
    (hxint : x * w / W + 1 < w) (hyint : y * h / H + 1 < h) :
    pix (resize (uniform h w p) W H) y x = p := by
  unfold resize
  rw [pix_mkTensor _ hy hx, if_pos (workerSpan_iff.mpr hcov), resizePixel_eq_spec,
    resizeSpecPixel_uniform p hp W H y x hxint hyint]

/-- C6 counterexample: resizing the 1×1 uniform opaque-white tensor to 1×1
yields transparent black, not the uniform color (its single pixel is
boundary-mapped, and `tileHeight = 1/4 = 0` covers no row at all). -/
theorem resize_uniform_not_uniform :
    pix (resize (uniform 1 1 [1, 1, 1, 1]) 1 1) 0 0 ≠ [1, 1, 1, 1] ∧
    pix (resize (uniform 1 1 [1, 1, 1, 1]) 1 1) 0 0 = List.replicate 4 0 := by
  have hz : pix (resize (uniform 1 1 [(1 : ℚ), 1, 1, 1]) 1 1) 0 0 = List.replicate 4 0 := by
    unfold resize
    rw [pix_mkTensor _ (by norm_num) (by norm_num), if_neg (by decide)]
    rfl
  refine ⟨?_, hz⟩
  rw [hz]
  simp [List.replicate]

/-- C6 witness: the amended theorem at a 3×3 uniform tensor resized to
2×4, destination pixel `(0, 0)`. -/
theorem resize_uniform_covered_interior_witness :
    ([(1 : ℚ), 0, 0, 1].length = 4) ∧ (0 : ℕ) < 4 ∧ (0 : ℕ) < 2 ∧
    0 < numWorkers * (4 / numWorkers) ∧ 0 * 3 / 2 + 1 < 3 ∧ 0 * 3 / 4 + 1 < 3 ∧
    pix (resize (uniform 3 3 [1, 0, 0, 1]) 2 4) 0 0 = [1, 0, 0, 1] :=
  ⟨rfl, by decide, by decide, by decide, by decide, by decide,
    resize_uniform_covered_interior [1, 0, 0, 1] rfl 2 4 0 0
      (by decide) (by decide) (by decide) (by decide) (by decide)⟩

/-! ## Claim C1 -/

/-- C1 (the code violates it): for a decoded 5×1 all-white image
(`At = 65535` on every channel), `ImageToTensor` leaves the trailing
column `x = 4 ≥ numWorkers*(5/numWorkers) = 4` at the zero pixel instead
of the normalized samples `[1, 1, 1, 1]` it writes in covered columns:
the claim requires every cell, including trailing columns, to hold the
channel samples divided by 65535. -/
theorem imageToTensor_trailing_column_unfilled :
    pix (imageToTensor ⟨5, 1, fun _ _ _ => 65535⟩) 0 4 = List.replicate 4 0 ∧
    pix (imageToTensor ⟨5, 1, fun _ _ _ => 65535⟩) 0 0 = [1, 1, 1, 1] := by
  constructor
  · unfold imageToTensor
    rw [pix_mkTensor _ (by decide) (by decide), if_neg (by decide)]
    rfl
  · unfold imageToTensor
    rw [pix_mkTensor _ (by decide) (by decide), if_pos (by decide)]
    norm_num [channels, List.range_succ]

/-! ## Claim C4 -/

/-- C4 (the code violates it): the tensor→image conversion writes
`color.RGBA64` values into an 8-bit `image.NewRGBA` buffer, so the
round trip `TensorToImage(ImageToTensor(img))` drops the low byte of
every 16-bit channel: for a 4×1 image whose channels are all 255, the
round-tripped channel reads back 0, off by 255 — far outside the claimed
±1 tolerance. -/
theorem roundtrip_drops_low_byte :
    (tensorToImage (imageToTensor ⟨4, 1, fun _ _ _ => 255⟩)).At 0 0 0 = 0 ∧
    (⟨4, 1, fun _ _ _ => 255⟩ : Image).At 0 0 0 = 255 := by
  refine ⟨?_, rfl⟩
  have hpix : pix (imageToTensor ⟨4, 1, fun _ _ _ => 255⟩) 0 0
      = (List.range channels).map fun _ => ((255 : ℕ) : ℚ) / 65535 := by
    unfold imageToTensor
    rw [pix_mkTensor _ (by decide) (by decide), if_pos (by decide)]
  have hchan : chan (imageToTensor ⟨4, 1, fun _ _ _ => 255⟩) 0 0 0
      = ((255 : ℕ) : ℚ) / 65535 := by
    unfold chan
    rw [hpix]
    rfl
  have hW : tWidth (imageToTensor ⟨4, 1, fun _ _ _ => 255⟩) = 4 := by
    unfold imageToTensor
    exact tWidth_mkTensor _ (by decide)
  have hH : tHeight (imageToTensor ⟨4, 1, fun _ _ _ => 255⟩) = 1 := by
    unfold imageToTensor
    exact tHeight_mkTensor _
  simp only [tensorToImage]
  rw [if_pos ⟨by rw [hW]; decide, by rw [hH]; decide, by rw [hW]; decide, by decide⟩]
  rw [hchan, div_mul_cancel₀ _ (by norm_num : (65535 : ℚ) ≠ 0)]
  unfold goUint16
  rw [goInt_natCast, Int.toNat_natCast]

/-! ## Claim C7 -/

theorem scaleFactor_nonneg (target overlay : Tensor) : 0 ≤ scaleFactor target overlay := by
  unfold scaleFactor
  split
  · exact le_min (by positivity) (by positivity)
  · norm_num

theorem scaleFactor_le_width (target overlay : Tensor) (hoW : 0 < tWidth overlay) :
    scaleFactor target overlay ≤ (tWidth target : ℚ) / (tWidth overlay : ℚ) := by
  unfold scaleFactor
  split
  · exact min_le_left _ _
  · next hcond =>
    push_neg at hcond
    exact (one_le_div (by exact_mod_cast hoW)).mpr (Nat.cast_le.mpr hcond.1)

theorem scaleFactor_le_height (target overlay : Tensor) (hoH : 0 < tHeight overlay) :
    scaleFactor target overlay ≤ (tHeight target : ℚ) / (tHeight overlay : ℚ) := by
  unfold scaleFactor
  split
  · exact min_le_right _ _
  · next hcond =>
    push_neg at hcond
    exact (one_le_div (by exact_mod_cast hoH)).mpr (Nat.cast_le.mpr hcond.2)

theorem goInt_mul_le_of_le_div {o tw : ℕ} {q : ℚ} (ho : 0 < o) (hq : 0 ≤ q)
    (hle : q ≤ (tw : ℚ) / (o : ℚ)) : (goInt ((o : ℚ) * q)).toNat ≤ tw := by
  have hmul : (o : ℚ) * q ≤ (tw : ℚ) := by
    calc (o : ℚ) * q ≤ (o : ℚ) * ((tw : ℚ) / (o : ℚ)) :=
          mul_le_mul_of_nonneg_left hle (by positivity)
      _ = (tw : ℚ) := by
          rw [mul_comm, div_mul_cancel₀ _ (Nat.cast_ne_zero.mpr ho.ne')]
  rw [goInt_of_nonneg (mul_nonneg (by positivity) hq)]
  exact Int.toNat_le.2 ((Int.floor_le_floor hmul).trans_eq (Int.floor_natCast tw))

/-- C7: `scaleFactor` returns 1.0 when the overlay fits the target in both
dimensions and `min(targetWidth/overlayWidth, targetHeight/overlayHeight)`
otherwise, and the scaled overlay dimensions
`int(overlayWidth*factor)`, `int(overlayHeight*factor)` used by
`AddOverlay` never exceed the target's dimensions. -/
theorem scaleFactor_shrink_to_fit (target overlay : Tensor)
    (hoW : 0 < tWidth overlay) (hoH : 0 < tHeight overlay) :
    (tWidth overlay ≤ tWidth target ∧ tHeight overlay ≤ tHeight target →
      scaleFactor target overlay = 1) ∧
    (tWidth target < tWidth overlay ∨ tHeight target < tHeight overlay →
      scaleFactor target overlay
        = min ((tWidth target : ℚ) / (tWidth overlay : ℚ))
            ((tHeight target : ℚ) / (tHeight overlay : ℚ))) ∧
    (goInt ((tWidth overlay : ℚ) * scaleFactor target overlay)).toNat ≤ tWidth target ∧
    (goInt ((tHeight overlay : ℚ) * scaleFactor target overlay)).toNat ≤ tHeight target := by
  refine ⟨?_, ?_, ?_, ?_⟩
  · rintro ⟨h1, h2⟩
    unfold scaleFactor
    rw [if_neg]
    push_neg
    exact ⟨h1, h2⟩
  · intro hcond
    unfold scaleFactor
    rw [if_pos hcond]
  · exact goInt_mul_le_of_le_div hoW (scaleFactor_nonneg target overlay)
      (scaleFactor_le_width target overlay hoW)
  · exact goInt_mul_le_of_le_div hoH (scaleFactor_nonneg target overlay)
      (scaleFactor_le_height target overlay hoH)

/-- C7 witness: the theorem at a 1×1 target and a 2×2 overlay (bigger in
both dimensions, so the factor branch with `min` is exercised). -/
theorem scaleFactor_shrink_to_fit_witness :
    0 < tWidth [[[(0 : ℚ)], [0]], [[0], [0]]] ∧ 0 < tHeight [[[(0 : ℚ)], [0]], [[0], [0]]] ∧
    ((tWidth [[[(0 : ℚ)], [0]], [[0], [0]]] ≤ tWidth [[[(0 : ℚ)]]] ∧
        tHeight [[[(0 : ℚ)], [0]], [[0], [0]]] ≤ tHeight [[[(0 : ℚ)]]] →
      scaleFactor [[[(0 : ℚ)]]] [[[(0 : ℚ)], [0]], [[0], [0]]] = 1) ∧
    (tWidth [[[(0 : ℚ)]]] < tWidth [[[(0 : ℚ)], [0]], [[0], [0]]] ∨
        tHeight [[[(0 : ℚ)]]] < tHeight [[[(0 : ℚ)], [0]], [[0], [0]]] →
      scaleFactor [[[(0 : ℚ)]]] [[[(0 : ℚ)], [0]], [[0], [0]]]
        = min ((tWidth [[[(0 : ℚ)]]] : ℚ) / (tWidth [[[(0 : ℚ)], [0]], [[0], [0]]] : ℚ))
            ((tHeight [[[(0 : ℚ)]]] : ℚ) / (tHeight [[[(0 : ℚ)], [0]], [[0], [0]]] : ℚ))) ∧
    (goInt ((tWidth [[[(0 : ℚ)], [0]], [[0], [0]]] : ℚ)
        * scaleFactor [[[(0 : ℚ)]]] [[[(0 : ℚ)], [0]], [[0], [0]]])).toNat
      ≤ tWidth [[[(0 : ℚ)]]] ∧
    (goInt ((tHeight [[[(0 : ℚ)], [0]], [[0], [0]]] : ℚ)
        * scaleFactor [[[(0 : ℚ)]]] [[[(0 : ℚ)], [0]], [[0], [0]]])).toNat
      ≤ tHeight [[[(0 : ℚ)]]]) :=
  ⟨by decide, by decide,
    scaleFactor_shrink_to_fit [[[(0 : ℚ)]]] [[[(0 : ℚ)], [0]], [[0], [0]]]
      (by decide) (by decide)⟩

/-! ## Claim C8 -/

/-- C8: `AddOverlay` reports the empty-input error (`none`) exactly when
the target or the overlay has zero rows; in the error case it returns
before constructing any output and the overlay state is returned
unchanged (the target is never written at all); otherwise it returns a
result tensor and no error. -/
theorem addOverlay_emptyInput_iff (target overlay : Tensor) :
    ((addOverlay target overlay).1 = none ↔ target.length = 0 ∨ overlay.length = 0) ∧
    (target.length = 0 ∨ overlay.length = 0 → addOverlay target overlay = (none, overlay)) ∧
    (¬(target.length = 0 ∨ overlay.length = 0) →
      ∃ result, (addOverlay target overlay).1 = some result) := by
  by_cases hc : target.length = 0 ∨ overlay.length = 0
  · unfold addOverlay
    rw [if_pos hc]
    exact ⟨⟨fun _ => hc, fun _ => rfl⟩, fun _ => rfl, fun hn => absurd hc hn⟩
  · unfold addOverlay
    rw [if_neg hc]
    exact ⟨⟨fun hnone => by simp at hnone, fun h => absurd h hc⟩,
      fun h => absurd h hc, fun _ => ⟨_, rfl⟩⟩

/-- C8 witness: the theorem applied at an empty target and at a pair of
non-empty tensors, exhibiting the error case (with the overlay returned
unchanged) and the success case. -/
theorem addOverlay_emptyInput_iff_witness :
    addOverlay [] [[[(1 : ℚ), 1, 1, 1]]] = (none, [[[(1 : ℚ), 1, 1, 1]]]) ∧
    ∃ result, (addOverlay [[[(0 : ℚ), 0, 0, 0]]] [[[(1 : ℚ), 1, 1, 1]]]).1 = some result :=
  ⟨(addOverlay_emptyInput_iff [] [[[(1 : ℚ), 1, 1, 1]]]).2.1 (Or.inl rfl),
    (addOverlay_emptyInput_iff [[[(0 : ℚ), 0, 0, 0]]] [[[(1 : ℚ), 1, 1, 1]]]).2.2
      (by simp)⟩

/-! ## Claim C10 -/

/-- C10: a successful `AddOverlay` call mutates its overlay argument in
place: the final overlay state is the original overlay resized to
`int(overlayWidth*factor) × int(overlayHeight*factor)`, whose dimensions
are exactly those (so the original contents are replaced by the scaled
overlay). -/
theorem addOverlay_mutates_overlay (target overlay : Tensor)
    (ht : target.length ≠ 0) (ho : overlay.length ≠ 0) :
    (addOverlay target overlay).2
      = resize overlay
          (goInt ((tWidth overlay : ℚ) * scaleFactor target overlay)).toNat
          (goInt ((tHeight overlay : ℚ) * scaleFactor target overlay)).toNat ∧
    (addOverlay target overlay).2.length
      = (goInt ((tHeight overlay : ℚ) * scaleFactor target overlay)).toNat ∧
    ∀ row ∈ (addOverlay target overlay).2,
      row.length = (goInt ((tWidth overlay : ℚ) * scaleFactor target overlay)).toNat := by
  have hc : ¬(target.length = 0 ∨ overlay.length = 0) := by
    rintro (h | h)
    exacts [ht h, ho h]
  have h2 : (addOverlay target overlay).2
      = resize overlay
          (goInt ((tWidth overlay : ℚ) * scaleFactor target overlay)).toNat
          (goInt ((tHeight overlay : ℚ) * scaleFactor target overlay)).toNat := by
    unfold addOverlay
    rw [if_neg hc]
  refine ⟨h2, ?_, ?_⟩
  · rw [h2, resize_length]
  · rw [h2]
    intro row hr
    exact resize_row_length hr

/-- C10 witness: the theorem at a 1×1 target and overlay. -/
theorem addOverlay_mutates_overlay_witness :
    ([[[(1 : ℚ), 1, 1, 1]]] : Tensor).length ≠ 0 ∧
    ((addOverlay [[[(1 : ℚ), 1, 1, 1]]] [[[(0 : ℚ), 0, 0, 1]]]).2
      = resize [[[(0 : ℚ), 0, 0, 1]]]
          (goInt ((tWidth [[[(0 : ℚ), 0, 0, 1]]] : ℚ)
            * scaleFactor [[[(1 : ℚ), 1, 1, 1]]] [[[(0 : ℚ), 0, 0, 1]]])).toNat
          (goInt ((tHeight [[[(0 : ℚ), 0, 0, 1]]] : ℚ)
            * scaleFactor [[[(1 : ℚ), 1, 1, 1]]] [[[(0 : ℚ), 0, 0, 1]]])).toNat ∧
    (addOverlay [[[(1 : ℚ), 1, 1, 1]]] [[[(0 : ℚ), 0, 0, 1]]]).2.length
      = (goInt ((tHeight [[[(0 : ℚ), 0, 0, 1]]] : ℚ)
          * scaleFactor [[[(1 : ℚ), 1, 1, 1]]] [[[(0 : ℚ), 0, 0, 1]]])).toNat ∧
    ∀ row ∈ (addOverlay [[[(1 : ℚ), 1, 1, 1]]] [[[(0 : ℚ), 0, 0, 1]]]).2,
      row.length = (goInt ((tWidth [[[(0 : ℚ), 0, 0, 1]]] : ℚ)
          * scaleFactor [[[(1 : ℚ), 1, 1, 1]]] [[[(0 : ℚ), 0, 0, 1]]])).toNat) :=
  ⟨by simp,
    addOverlay_mutates_overlay [[[(1 : ℚ), 1, 1, 1]]] [[[(0 : ℚ), 0, 0, 1]]]
      (by simp) (by simp)⟩

/-! ## Claim C9 -/

theorem grayPix_cons (a b c : ℚ) (rest : List ℚ) :
    grayPix (a :: b :: c :: rest)
      = ((0.2126 : ℚ) * a + 0.7152 * b + 0.0722 * c)
        :: ((0.2126 : ℚ) * a + 0.7152 * b + 0.0722 * c)
        :: ((0.2126 : ℚ) * a + 0.7152 * b + 0.0722 * c) :: rest :=
  rfl

theorem grayPix_idem {p : List ℚ} (hp : 3 ≤ p.length) :
    grayPix (grayPix p) = grayPix p := by
  match p, hp with
  | a :: b :: c :: rest, _ =>
    rw [grayPix_cons, grayPix_cons]
    have h : (0.2126 : ℚ) * ((0.2126 : ℚ) * a + 0.7152 * b + 0.0722 * c)
        + 0.7152 * ((0.2126 : ℚ) * a + 0.7152 * b + 0.0722 * c)
        + 0.0722 * ((0.2126 : ℚ) * a + 0.7152 * b + 0.0722 * c)
        = (0.2126 : ℚ) * a + 0.7152 * b + 0.0722 * c := by ring
    rw [h]

theorem tWidth_grayScale (t : Tensor) : tWidth (grayScale t) = tWidth t := by
  unfold tWidth grayScale
  cases t with
  | nil => rfl
  | cons row rows => simp [List.length_mapIdx]

/-- C9: `GrayScale` is idempotent: on any tensor whose pixels all have at
least the 3 color channels the per-pixel write reads back, applying it
twice equals applying it once (the luminosity weights 0.2126, 0.7152,
0.0722 sum to exactly 1, so graying a gray pixel is the identity; alpha
is untouched). -/
theorem grayScale_idempotent (t : Tensor)
    (hch : ∀ row ∈ t, ∀ p ∈ row, 3 ≤ p.length) :
    grayScale (grayScale t) = grayScale t := by
  have hW := tWidth_grayScale t
  show (grayScale t).map
      (fun row => row.mapIdx fun x p => if x < tWidth (grayScale t) then grayPix p else p)
    = grayScale t
  rw [hW]
  unfold grayScale
  rw [List.map_map]
  apply List.map_congr_left
  intro row hrow
  apply List.ext_getElem
  · simp [List.length_mapIdx]
  · intro n h1 h2
    simp only [Function.comp_apply, List.getElem_mapIdx]
    by_cases hx : n < tWidth t
    · simp only [if_pos hx]
      exact grayPix_idem (hch row hrow _ (List.getElem_mem _))
    · simp only [if_neg hx]

/-- C9 witness: the theorem at a 1×1 red tensor. -/
theorem grayScale_idempotent_witness :
    (∀ row ∈ ([[[(1 : ℚ), 0, 0, 1]]] : Tensor), ∀ p ∈ row, 3 ≤ p.length) ∧
    grayScale (grayScale [[[(1 : ℚ), 0, 0, 1]]]) = grayScale [[[(1 : ℚ), 0, 0, 1]]] :=
  ⟨by decide, grayScale_idempotent [[[(1 : ℚ), 0, 0, 1]]] (by decide)⟩

/-! ## Claim C5 -/

theorem getD_eq_getElem_of_lt {α : Type} (l : List α) {i : Nat} (h : i < l.length) (d : α) :
    l.getD i d = l[i] := by
  rw [List.getD_eq_getElem?_getD, List.getElem?_eq_getElem h]
  rfl

theorem getD_mapIdx {α β : Type} (l : List α) (f : Nat → α → β) {i : Nat}
    (h : i < l.length) (d : β) : (l.mapIdx f).getD i d = f i l[i] := by
  rw [List.getD_eq_getElem?_getD,
    List.getElem?_eq_getElem (by simpa [List.length_mapIdx] using h)]
  simp [List.getElem_mapIdx]

/-- C5 (amended): every destination pixel of `Rotate` whose inverse-mapped
source coordinate `(originalX, originalY)` falls out of bounds is set to
the zero pixel of the freshly allocated temp buffer (transparent black),
which is then copied over the original — the pre-rotation value is *not*
preserved.  (The claim as stated, that the pixel keeps its pre-rotation
value, is refuted by `rotate_oob_pixel_not_preserved`.) -/
theorem rotate_oob_pixel_zeroed (t : Tensor) (cosv sinv : ℚ) (y x : Nat)
    (hy : y < t.length) (hx : x < (t.getD y []).length) (hxw : x < tWidth t)
    (hoob : ¬(0 ≤ rotSrcX t cosv sinv y x ∧ rotSrcX t cosv sinv y x < (tWidth t : ℚ) ∧
      0 ≤ rotSrcY t cosv sinv y x ∧ rotSrcY t cosv sinv y x < (tHeight t : ℚ))) :
    pix (rotate t cosv sinv) y x = List.replicate 4 0 := by
  have hx' : x < t[y].length := by rwa [getD_eq_getElem_of_lt t hy] at hx
  unfold pix rotate
  simp only [getD_mapIdx _ _ hy, getD_mapIdx _ _ hx', if_pos hxw, if_neg hoob]
  rfl

/-- C5 counterexample: rotating the 1×1 opaque-white tensor with
`cos = 0`, `sin = 1` (a quarter turn) maps its only pixel out of bounds
(`originalY = 1 ≥ height`), and the pixel comes back transparent black
instead of keeping its pre-rotation value `[1, 1, 1, 1]`. -/
theorem rotate_oob_pixel_not_preserved :
    pix (rotate [[[1, 1, 1, 1]]] 0 1) 0 0 ≠ pix [[[1, 1, 1, 1]]] 0 0 ∧
    pix (rotate [[[1, 1, 1, 1]]] 0 1) 0 0 = List.replicate 4 0 := by
  have hX : rotSrcX [[[(1 : ℚ), 1, 1, 1]]] 0 1 0 0 = 0 := by
    unfold rotSrcX
    norm_num [tWidth, tHeight]
  have hY : rotSrcY [[[(1 : ℚ), 1, 1, 1]]] 0 1 0 0 = 1 := by
    unfold rotSrcY
    norm_num [tWidth, tHeight]
  have hoob : ¬(0 ≤ rotSrcX [[[(1 : ℚ), 1, 1, 1]]] 0 1 0 0 ∧
      rotSrcX [[[(1 : ℚ), 1, 1, 1]]] 0 1 0 0 < (tWidth [[[(1 : ℚ), 1, 1, 1]]] : ℚ) ∧
      0 ≤ rotSrcY [[[(1 : ℚ), 1, 1, 1]]] 0 1 0 0 ∧
      rotSrcY [[[(1 : ℚ), 1, 1, 1]]] 0 1 0 0 < (tHeight [[[(1 : ℚ), 1, 1, 1]]] : ℚ)) := by
    rw [hX, hY]
    norm_num [tWidth, tHeight]
  have hz : pix (rotate [[[(1 : ℚ), 1, 1, 1]]] 0 1) 0 0 = List.replicate 4 0 := by
    have hy : (0 : ℕ) < ([[[(1 : ℚ), 1, 1, 1]]] : Tensor).length := by decide
    have hx : (0 : ℕ) < (([[[(1 : ℚ), 1, 1, 1]]] : Tensor).getD 0 []).length := by decide
    have hx' : (0 : ℕ) < (([[[(1 : ℚ), 1, 1, 1]]] : Tensor)[0]).length := by
      rwa [getD_eq_getElem_of_lt _ hy] at hx
    unfold pix rotate
    simp only [getD_mapIdx _ _ hy, getD_mapIdx _ _ hx',
      if_pos (by decide : (0 : ℕ) < tWidth [[[(1 : ℚ), 1, 1, 1]]]), if_neg hoob]
    rfl
  refine ⟨?_, hz⟩
  rw [hz, show pix [[[(1 : ℚ), 1, 1, 1]]] 0 0 = [1, 1, 1, 1] from rfl]
  simp [List.replicate]

/-- C5 witness: the amended theorem at the same quarter-turn input. -/
theorem rotate_oob_pixel_zeroed_witness :
    (0 : ℕ) < ([[[(1 : ℚ), 1, 1, 1]]] : Tensor).length ∧
    (0 : ℕ) < (([[[(1 : ℚ), 1, 1, 1]]] : Tensor).getD 0 []).length ∧
    (0 : ℕ) < tWidth [[[(1 : ℚ), 1, 1, 1]]] ∧
    ¬(0 ≤ rotSrcX [[[(1 : ℚ), 1, 1, 1]]] 0 1 0 0 ∧
      rotSrcX [[[(1 : ℚ), 1, 1, 1]]] 0 1 0 0 < (tWidth [[[(1 : ℚ), 1, 1, 1]]] : ℚ) ∧
      0 ≤ rotSrcY [[[(1 : ℚ), 1, 1, 1]]] 0 1 0 0 ∧
      rotSrcY [[[(1 : ℚ), 1, 1, 1]]] 0 1 0 0 < (tHeight [[[(1 : ℚ), 1, 1, 1]]] : ℚ)) ∧
    pix (rotate [[[(1 : ℚ), 1, 1, 1]]] 0 1) 0 0 = List.replicate 4 0 := by
  have hoob : ¬(0 ≤ rotSrcX [[[(1 : ℚ), 1, 1, 1]]] 0 1 0 0 ∧
      rotSrcX [[[(1 : ℚ), 1, 1, 1]]] 0 1 0 0 < (tWidth [[[(1 : ℚ), 1, 1, 1]]] : ℚ) ∧
      0 ≤ rotSrcY [[[(1 : ℚ), 1, 1, 1]]] 0 1 0 0 ∧
      rotSrcY [[[(1 : ℚ), 1, 1, 1]]] 0 1 0 0 < (tHeight [[[(1 : ℚ), 1, 1, 1]]] : ℚ)) := by
    rw [show rotSrcY [[[(1 : ℚ), 1, 1, 1]]] 0 1 0 0 = 1 from by
      unfold rotSrcY
      norm_num [tWidth, tHeight]]
    norm_num [tWidth, tHeight]
  exact ⟨by decide, by decide, by decide, hoob,
    rotate_oob_pixel_zeroed [[[(1 : ℚ), 1, 1, 1]]] 0 1 0 0
      (by decide) (by decide) (by decide) hoob⟩

/-! ## Claim C3 -/

/-- C3 (the code violates it): compositing a 1×1 opaque overlay onto a 1×1
target with alpha 0.  The overlay's placed rectangle is the whole 1×1
block (`newOverlayWidth = newOverlayHeight = 1`, offsets 0), so the claim
requires its pixel to be blended with alpha forced to 1.0 — but
`tileHeight = 1/4 = 0` makes every worker range empty, the entire
rectangle is a trailing remainder, and the result keeps the plain copy of
the target with alpha 0. -/
theorem addOverlay_trailing_rows_not_blended :
    (addOverlay [[[(1 : ℚ), 1, 1, 0]]] [[[(1 : ℚ), 1, 1, 1]]]).1
      = some [[[(1 : ℚ), 1, 1, 0]]] := by
  have hfac : scaleFactor [[[(1 : ℚ), 1, 1, 0]]] [[[(1 : ℚ), 1, 1, 1]]] = 1 := by
    unfold scaleFactor
    rw [if_neg (by decide)]
  have hg1 : goInt ((tWidth [[[(1 : ℚ), 1, 1, 1]]] : ℚ)
      * scaleFactor [[[(1 : ℚ), 1, 1, 0]]] [[[(1 : ℚ), 1, 1, 1]]]) = 1 := by
    rw [hfac, mul_one, show tWidth [[[(1 : ℚ), 1, 1, 1]]] = 1 from rfl, goInt_natCast]
    norm_num
  have hg2 : goInt ((tHeight [[[(1 : ℚ), 1, 1, 1]]] : ℚ)
      * scaleFactor [[[(1 : ℚ), 1, 1, 0]]] [[[(1 : ℚ), 1, 1, 1]]]) = 1 := by
    rw [hfac, mul_one, show tHeight [[[(1 : ℚ), 1, 1, 1]]] = 1 from rfl, goInt_natCast]
    norm_num
  unfold addOverlay
  rw [if_neg (by simp)]
  simp only [hg1, hg2]
  rfl

end Imagetor
